import Mathlib

/-!
A shallow embedding of the SST-assimilation preprocessing module
(PyFVCOM/preproc.py): the batch driver `interp_sst_assimilation`, the
per-file worker `_inter_sst_worker`, and the netCDF forcing-file writer
`WriteForcing` / `write_sstgrd`, together with theorems checking the
module's specification against this embedding.

Modelling conventions:
* temperatures and grid coordinates are exact rationals; numpy's NaN
  sentinel (assigned to masked cells) is modelled as `none : Option ℚ`;
* calendar timestamps (python `datetime` values) are integers counting
  seconds, so `relativedelta(hours=12)` is `+ 43200`;
* the filesystem below `sst_dir` is a map from a year to the listing
  `os.listdir` returns for that year's directory (`none` when the
  directory is missing, modelling the `FileNotFoundError` that
  `os.listdir` raises), plus a map from (year, filename) to the netCDF
  snapshot stored in that file;
* python exceptions are values of an explicit error type and fallible
  code returns `Except`;
* `pool.map` dispatches a worker per input file; workers complete in an
  arbitrary order (the `sched` parameter), and results are delivered
  keyed by input index and reassembled in input order, which is the
  documented contract of `multiprocessing.Pool.map`.  `pool_size` only
  restricts which completion orders can occur, so the embedding
  quantifies over every completion order instead;
* the `noisy` flag only prints progress and is omitted.
-/

namespace PyFVCOM

/-- Errors raised by the embedded code.  The two named by the spec's
taxonomy are `configurationError` (the `FileNotFoundError` that
`os.listdir` raises on a missing year directory; the spec calls this
precondition failure ConfigurationError) and `schemaError` (the error
netCDF4's `createVariable` raises when a requested dimension was never
created on the file; the spec calls it SchemaError). -/
inductive PyErr where
  | configurationError
  | indexError
  | valueError
  | schemaError
  | typeError
  | poolError
deriving DecidableEq

/-- Contents of one SST snapshot file, as read by the worker from
`Dataset(sst_file)`.  `analysed_sst` holds the Kelvin field indexed
(lon index, lat index) — the worker feeds `sst_eo.T` to the
interpolator, so this indexing already absorbs the transpose.  `mask` is
the validity mask on the same indexing and `times` the calendar
timestamps obtained by `num2date` from the file's time variable. -/
structure Snapshot where
  lon : List ℚ
  lat : List ℚ
  analysed_sst : Nat → Nat → ℚ
  mask : Nat → Nat → Int
  times : List Int

/-- Filesystem below `sst_dir`: `listdir y` is what
`os.listdir(os.path.join(sst_dir, str(y)))` returns, in the arbitrary
order the OS produces (`none` when that directory does not exist), and
`read y name` is the snapshot stored in `os.path.join(sst_dir, str(y),
name)`. -/
structure SstFs where
  listdir : Int → Option (List String)
  read : Int → String → Snapshot

/-- Model domain (`PyFVCOM.grid.Domain`): per-node longitude/latitude
arrays plus the element and node counts, with the coherence inherent in
"per-node arrays" (both arrays have one entry per node). -/
structure Domain where
  lon : List ℚ
  lat : List ℚ
  nele : Nat
  node : Nat
  lat_length : lat.length = lon.length
  node_count : node = lon.length

/-- Result of `_inter_sst_worker`: the pair
`(time_out_dt, interp_sst)`. -/
structure WorkerResult where
  time_out_dt : List Int
  interp_sst : List (Option ℚ)
deriving DecidableEq

/-- Kelvin-to-Celsius conversion plus masking, in the worker's order:
`sst_eo = analysed_sst - 273.15` then `sst_eo[mask != 1] = np.nan`.
Masked cells carry the NaN sentinel `none`. -/
def maskedSst (s : Snapshot) (i j : Nat) : Option ℚ :=
  if s.mask i j = 1 then some (s.analysed_sst i j - 273.15) else none

/-- Scan of one coordinate axis for the grid index nearest to `x`,
tracking the best index and its distance (first index wins exact ties;
the theorems below only use tie-free situations). -/
def nearestGo (x : ℚ) : List ℚ → Nat → Nat → ℚ → Nat
  | [], _, best, _ => best
  | a :: rest, i, best, bestDist =>
    if |x - a| < bestDist then nearestGo x rest (i + 1) i |x - a|
    else nearestGo x rest (i + 1) best bestDist

/-- Index of the axis coordinate nearest to `x`: the per-axis lookup of
`RegularGridInterpolator(..., method='nearest', fill_value=None)`.  With
`fill_value=None` an out-of-range query still uses the nearest grid
point, which the argmin does naturally. -/
def nearestIdx (axis : List ℚ) (x : ℚ) : Nat :=
  match axis with
  | [] => 0
  | a :: rest => nearestGo x rest 1 0 |x - a|

/-- Evaluation of the interpolator `ft` at one query point `(lon, lat)`:
the masked field value of the nearest grid cell. -/
def interpAt (s : Snapshot) (p : ℚ × ℚ) : Option ℚ :=
  maskedSst s (nearestIdx s.lon p.1) (nearestIdx s.lat p.2)

/-- The worker `_inter_sst_worker(fvcom_ll, sst_file)`: reads the
snapshot, masks it, builds the nearest-neighbour interpolator, evaluates
it at every mesh node coordinate and returns `(time_out_dt,
interp_sst)`. -/
def inter_sst_worker (fvcom_ll : List (ℚ × ℚ)) (s : Snapshot) : WorkerResult :=
  { time_out_dt := s.times
    interp_sst := fvcom_ll.map (interpAt s) }

/-- Lookup `os.listdir` on one year directory; a missing directory
raises (`FileNotFoundError`, the spec's ConfigurationError). -/
def listdirE (fs : SstFs) (y : Int) : Except PyErr (List String) :=
  match fs.listdir y with
  | none => Except.error PyErr.configurationError
  | some l => Except.ok l

/-- Python's `sorted` on a list of filenames: lexicographic ascending. -/
def pySorted (l : List String) : List String :=
  l.insertionSort (· ≤ ·)

/-- The expression `sorted(listing)[-1]`; `IndexError` on an empty
listing. -/
def lastOfSorted (l : List String) : Except PyErr String :=
  match (pySorted l).getLast? with
  | none => Except.error PyErr.indexError
  | some x => Except.ok x

/-- The expression `sorted(listing)[0]`; `IndexError` on an empty
listing. -/
def headOfSorted (l : List String) : Except PyErr String :=
  match (pySorted l).head? with
  | none => Except.error PyErr.indexError
  | some x => Except.ok x

/-- Lines 71–73 of the driver: the last (sorted) file of the previous
year's directory, then every file of the target year's directory in the
raw `os.listdir` order (the code does not sort this listing), then the
first (sorted) file of the next year's directory.  A file is identified
by its (year directory, filename) pair, which determines the joined
path. -/
def sstFileList (fs : SstFs) (year : Int) : Except PyErr (List (Int × String)) :=
  match listdirE fs (year - 1) with
  | Except.error e => Except.error e
  | Except.ok prevL =>
    match lastOfSorted prevL with
    | Except.error e => Except.error e
    | Except.ok prevLast =>
      match listdirE fs year with
      | Except.error e => Except.error e
      | Except.ok yearL =>
        match listdirE fs (year + 1) with
        | Except.error e => Except.error e
        | Except.ok nextL =>
          match headOfSorted nextL with
          | Except.error e => Except.error e
          | Except.ok nextFirst =>
            Except.ok ((year - 1, prevLast) ::
              (yearL.map (fun i => (year, i)) ++ [(year + 1, nextFirst)]))

/-- Reassembly of pool results: for each input index (in input order)
find the delivered result with that key.  A key that was never delivered
would block the join forever; that situation is modelled as an error and
is proved unreachable for genuine completion orders. -/
def collectIdx {β : Type} (completed : List (Nat × β)) : List Nat → Except PyErr (List β)
  | [] => Except.ok []
  | i :: rest =>
    match completed.find? (fun p => p.1 == i) with
    | none => Except.error PyErr.poolError
    | some p =>
      match collectIdx completed rest with
      | Except.error e => Except.error e
      | Except.ok l => Except.ok (p.2 :: l)

/-- The contract of `pool.map(part_func, sst_files)`: every input is
dispatched to a worker, workers complete in the arbitrary order `sched`,
and the pool returns the results reassembled in input order. -/
def poolMap {α β : Type} (sched : List Nat) (f : α → β) (xs : List α) :
    Except PyErr (List β) :=
  collectIdx (sched.filterMap (fun i => (xs[i]?).map (fun x => (i, f x)))) (List.range xs.length)

/-- The fixed 12-hour offset `relativedelta(hours=12)` (seconds). -/
def twelveHours : Int := 12 * 3600

/-- The collection loop over `results` (lines 95–99): for each worker
result, `dates[i] = result[0][0] + relativedelta(hours=12)` (an
`IndexError` when the file's time axis is empty) and
`sst[i, :] = result[1]` (numpy raises `ValueError` when the vector
length differs from `domain.dims.node`).  Returns `(dates, sst)`. -/
def collectResults (node : Nat) : List WorkerResult → Except PyErr (List Int × List (List (Option ℚ)))
  | [] => Except.ok ([], [])
  | r :: rest =>
    match r.time_out_dt.head? with
    | none => Except.error PyErr.indexError
    | some t =>
      if r.interp_sst.length = node then
        match collectResults node rest with
        | Except.error e => Except.error e
        | Except.ok (ds, vs) => Except.ok ((t + twelveHours) :: ds, r.interp_sst :: vs)
      else Except.error PyErr.valueError

/-- The per-file job the driver hands to workers: the worker applied to
the shared node coordinates `lonlat = np.array((domain.grid.lon,
domain.grid.lat))` and the snapshot stored in the given file. -/
def interpWorkerOn (fs : SstFs) (domain : Domain) (f : Int × String) : WorkerResult :=
  inter_sst_worker (domain.lon.zip domain.lat) (fs.read f.1 f.2)

/-- The driver `interp_sst_assimilation(domain, sst_dir, year, serial,
pool_size)`.  Returns the `(sst, dates)` value of the python function
together with the list of files actually handed to a worker (empty when
the file listing fails, since that happens before any dispatch).  In
serial mode workers run in file order; in parallel mode they are
dispatched to the pool and complete in the order `sched`. -/
def interp_sst_assimilation (fs : SstFs) (domain : Domain) (year : Int)
    (serial : Bool) (sched : List Nat) :
    Except PyErr (List (List (Option ℚ)) × List Int) × List (Int × String) :=
  match sstFileList fs year with
  | Except.error e => (Except.error e, [])
  | Except.ok sst_files =>
    match (if serial then Except.ok (sst_files.map (interpWorkerOn fs domain))
           else poolMap sched (interpWorkerOn fs domain) sst_files) with
    | Except.error e => (Except.error e, sst_files)
    | Except.ok results =>
      match collectResults domain.node results with
      | Except.error e => (Except.error e, sst_files)
      | Except.ok (dates, sst) => (Except.ok (sst, dates), sst_files)

/-- Lifecycle events on the backing netCDF file handle. -/
inductive NcEvent where
  | acquire
  | release
deriving DecidableEq

/-- The netCDF4 `Dataset` handle: declared dimensions, created
variables, attached global attributes. -/
structure Dataset where
  dimensions : List (String × Nat)
  vars : List String
  attrs : List (String × String)

/-- netCDF4's `createVariable(name, format, dimensions)`: refuses a
variable whose dimensions were not created on the file (the spec's
SchemaError). -/
def Dataset.createVariable (ds : Dataset) (name : String) (_fmt : String)
    (dims : List String) : Except PyErr Dataset :=
  if dims.all (fun d => (ds.dimensions.map Prod.fst).contains d) then
    Except.ok { ds with vars := name :: ds.vars }
  else Except.error PyErr.schemaError

/-- The writer object `WriteForcing`, holding its `self.nc` dataset.
The python class defines only `__init__`, `add_variable` and `close`;
in particular it defines neither an enter nor an exit method for the
context-manager protocol, which `writeForcingHasEnter` records. -/
structure WriteForcing where
  nc : Dataset

/-- The `WriteForcing` class has no enter method (nor exit method): its
only methods are `__init__`, `add_variable` and `close`. -/
def writeForcingHasEnter : Bool := false

/-- The constructor `WriteForcing.__init__(filename, dimensions,
global_attributes=None)`.  It first opens the backing file
(`self.nc = Dataset(str(filename), 'w', **kwargs)` — the `acquire`
event), creates every dimension, then iterates `global_attributes`;
iterating the default `None` raises `TypeError`, after the handle was
already opened. -/
def WriteForcing.init (_filename : String) (dimensions : List (String × Nat))
    (global_attributes : Option (List (String × String))) :
    Except PyErr WriteForcing × List NcEvent :=
  let nc : Dataset := { dimensions := dimensions, vars := [], attrs := [] }
  match global_attributes with
  | none => (Except.error PyErr.typeError, [NcEvent.acquire])
  | some attrs => (Except.ok { nc := { nc with attrs := attrs } }, [NcEvent.acquire])

/-- The method `WriteForcing.add_variable(name, data, dimensions,
attributes=None, format='f4', ncopts={})`, statement by statement:
* `setattr(self, name, self.nc.createVariable(name, format, dimensions),
  **ncopts)` — the `createVariable` argument is evaluated first, so an
  undeclared dimension fails here with the SchemaError; then `setattr`
  itself raises `TypeError` whenever `ncopts` is non-empty, because
  `setattr` takes no keyword arguments;
* `for attribute in attributes:` — iterating the default `None` raises
  `TypeError`;
* `setattr(getattr(self, name), data)` — `setattr` called with two
  arguments always raises `TypeError`, so the method can never return
  normally. -/
def WriteForcing.add_variable {α : Type} (self : WriteForcing) (name : String)
    (_data : α) (dimensions : List String)
    (attributes : Option (List (String × String))) (fmt : String)
    (ncopts : List (String × String)) : Except PyErr WriteForcing :=
  match self.nc.createVariable name fmt dimensions with
  | Except.error e => Except.error e
  | Except.ok _nc =>
    if ncopts.isEmpty then
      match attributes with
      | none => Except.error PyErr.typeError
      | some _attrs => Except.error PyErr.typeError
    else Except.error PyErr.typeError

/-- The method `WriteForcing.close()`: flush and release the handle.
It is modelled for completeness; `write_sstgrd` never reaches it. -/
def WriteForcing.close (self : WriteForcing) : WriteForcing × List NcEvent :=
  (self, [NcEvent.release])

/-- The fixed global attributes `write_sstgrd` builds.  The `year`
entry is `time[0].year`; in the seconds-based time model the calendar
year is a function of the first timestamp `t0`, folded here into its
string rendering.  Indexing `time[0]` itself happens in `write_sstgrd`,
which raises `IndexError` on an empty time series before this
dictionary exists. -/
def sstgrdGlobals (t0 : Int) : List (String × String) :=
  [("year", toString t0),
   ("title", "FVCOM SST 1km merged product File"),
   ("institution", "Plymouth Marine Laboratory"),
   ("source", "FVCOM grid (unstructured) surface forcing"),
   ("history", "File created using PyFVCOM"),
   ("references", "http://fvcom.smast.umassd.edu, http://codfish.smast.umassd.edu"),
   ("Conventions", "CF-1.0"),
   ("CoordinateProjection", "init=WGS84")]

/-- The assembler `write_sstgrd(output_file, domain, data, time)`:
first builds the globals dictionary — whose `year` entry indexes
`time[0]`, so an empty time series raises `IndexError` here, before any
handle is opened — then the dims dictionary, then enters
`with WriteForcing(output_file, dims, global_attributes=globals, ...)`.
The `with` statement first evaluates the constructor (which opens the
backing file) and then looks up the enter method on the class; since
`WriteForcing` defines neither enter nor exit, the lookup raises
`TypeError` before the suite runs, so none of the `add_variable` calls
nor any `close`/release is ever reached. -/
def write_sstgrd (output_file : String) (domain : Domain)
    (_data : List (List (Option ℚ))) (time : List Int) :
    Except PyErr Unit × List NcEvent :=
  match time.head? with
  | none => (Except.error PyErr.indexError, [])
  | some t0 =>
    let dims : List (String × Nat) :=
      [("nele", domain.nele), ("node", domain.node), ("time", 0),
       ("DateStrLen", 26), ("three", 3)]
    match WriteForcing.init output_file dims (some (sstgrdGlobals t0)) with
    | (Except.error e, evs) => (Except.error e, evs)
    | (Except.ok _sstgrd, evs) =>
      if writeForcingHasEnter then
        (Except.ok (), evs ++ [NcEvent.release])
      else (Except.error PyErr.typeError, evs)

/-! Concrete inputs used to evaluate the embedding at specific points. -/

/-- A one-node domain with the node at the origin. -/
def domW : Domain := ⟨[0], [0], 0, 1, rfl, rfl⟩

/-- A one-cell snapshot whose single cell is masked out (mask 0) and
whose time axis holds the single timestamp `t`. -/
def snapT (t : Int) : Snapshot :=
  { lon := [0], lat := [0], analysed_sst := fun _ _ => 300,
    mask := fun _ _ => 0, times := [t] }

/-- A filesystem with one file per year directory for 1999–2001, every
snapshot timestamped at 0. -/
def fsA : SstFs :=
  { listdir := fun y => if y = 1999 ∨ y = 2000 ∨ y = 2001 then some ["a"] else none
    read := fun _ _ => snapT 0 }

/-- A filesystem whose 2006 directory listing comes back from
`os.listdir` in non-lexicographic order (["b", "a"]), with each file's
midnight timestamp matching its name: file "a" holds day 1 of 2006 and
file "b" day 2, while the boundary years hold the bracketing days. -/
def fsB : SstFs :=
  { listdir := fun y =>
      if y = 2005 then some ["a"]
      else if y = 2006 then some ["b", "a"]
      else if y = 2007 then some ["a"]
      else none
    read := fun y n =>
      if y = 2005 then snapT 0
      else if y = 2006 then (if n = "b" then snapT 172800 else snapT 86400)
      else snapT 259200 }

/-- A filesystem with no year directories at all. -/
def fsNone : SstFs :=
  { listdir := fun _ => none, read := fun _ _ => snapT 0 }

/-- A two-by-one source grid whose cell at lon index 0 is masked out. -/
def snapM : Snapshot :=
  { lon := [0, 1], lat := [0], analysed_sst := fun _ _ => 300,
    mask := fun i _ => if i = 0 then 0 else 1, times := [0] }

/-- A writer whose file declares only the dimension "node". -/
def wfNode : WriteForcing :=
  ⟨{ dimensions := [("node", 3)], vars := [], attrs := [] }⟩

end PyFVCOM

open PyFVCOM

/-! Helper lemmas about the pool reassembly. -/

/-- Reading every index of a list back in order reproduces the list. -/
theorem map_getD_range {α : Type} (d : α) :
    ∀ l : List α, (List.range l.length).map (fun i => l.getD i d) = l := by
  intro l
  induction l with
  | nil => rfl
  | cons a t ih =>
    have hc : ((fun i => (a :: t).getD i d) ∘ Nat.succ) = fun i => t.getD i d := by
      funext i
      simp [List.getD_cons_succ]
    simp only [List.length_cons, List.range_succ_eq_map, List.map_cons, List.map_map,
      List.getD_cons_zero, hc, ih]

/-- In the pool's delivered-results list, the result keyed by an
in-range index `i` that some worker completed is the worker value on the
i-th input. -/
theorem find_filterMap_eq {α β : Type} (f : α → β) (xs : List α) (d : α) (i : Nat)
    (hi : i < xs.length) :
    ∀ sched : List Nat, i ∈ sched →
      (sched.filterMap (fun j => (xs[j]?).map (fun x => (j, f x)))).find?
        (fun p => p.1 == i) = some (i, f (xs.getD i d)) := by
  intro sched
  induction sched with
  | nil => intro h; exact absurd h (List.not_mem_nil i)
  | cons j rest ih =>
    intro hmem
    cases hj : xs[j]? with
    | none =>
      have hij : i ≠ j := by
        intro h
        rw [← h, List.getElem?_eq_getElem hi] at hj
        exact Option.noConfusion hj
      have hir : i ∈ rest := (List.mem_cons.1 hmem).resolve_left hij
      simp only [List.filterMap_cons, hj, Option.map_none']
      exact ih hir
    | some x =>
      by_cases hij : j = i
      · subst hij
        have hx : xs.getD j d = x := by
          rw [List.getD_eq_getElem?_getD, hj]
          rfl
        simp only [List.filterMap_cons, hj, Option.map_some']
        rw [List.find?_cons_of_pos _ (by simp), hx]
      · have hir : i ∈ rest := (List.mem_cons.1 hmem).resolve_left (fun h => hij h.symm)
        simp only [List.filterMap_cons, hj, Option.map_some']
        rw [List.find?_cons_of_neg _ (by simp [hij])]
        exact ih hir

/-- Joining indices against a delivered-results list that answers every
index yields exactly the per-index values, in index order. -/
theorem collectIdx_ok {β : Type} (completed : List (Nat × β)) (g : Nat → β) :
    ∀ idxs : List Nat,
      (∀ i ∈ idxs, completed.find? (fun p => p.1 == i) = some (i, g i)) →
      collectIdx completed idxs = Except.ok (idxs.map g) := by
  intro idxs
  induction idxs with
  | nil => intro _; rfl
  | cons i rest ih =>
    intro h
    have hhead := h i (List.mem_cons_self i rest)
    have htail := ih (fun j hj => h j (List.mem_cons_of_mem i hj))
    simp only [collectIdx, hhead, htail, List.map_cons]

/-- The pool.map contract holds for every genuine completion order: the
reassembled results equal the in-order serial map. -/
theorem poolMap_perm {α β : Type} (d : α) (sched : List Nat) (f : α → β) (xs : List α)
    (h : sched.Perm (List.range xs.length)) :
    poolMap sched f xs = Except.ok (xs.map f) := by
  unfold poolMap
  rw [collectIdx_ok _ (fun i => f (xs.getD i d))]
  · have h2 := congrArg (List.map f) (map_getD_range d xs)
    rw [List.map_map] at h2
    exact congrArg Except.ok h2
  · intro i hiR
    have hi : i < xs.length := List.mem_range.1 hiR
    have him : i ∈ sched := h.mem_iff.2 hiR
    exact find_filterMap_eq f xs d i hi sched him

/-- C1: for every domain, filesystem under sst_dir and year over the
same set of input snapshot files, the parallel run of
interp_sst_assimilation produces a result identical to the serial run —
same interpolated vectors, same timestamps, same ordering — for every
completion order the pool (of any size) could produce. -/
theorem serial_parallel_identical (fs : SstFs) (domain : Domain) (year : Int)
    (sched : List Nat) (files : List (Int × String))
    (hf : sstFileList fs year = Except.ok files)
    (hsched : sched.Perm (List.range files.length)) :
    interp_sst_assimilation fs domain year false sched =
      interp_sst_assimilation fs domain year true sched := by
  have hp := poolMap_perm (0, "") sched (interpWorkerOn fs domain) files hsched
  unfold interp_sst_assimilation
  rw [hf]
  simp only [Bool.false_eq_true, if_false, if_true, hp]

/-- Witness for C1 at a concrete filesystem, domain and completion
order. -/
theorem serial_parallel_identical_witness :
    interp_sst_assimilation fsA domW 2000 false [2, 0, 1] =
      interp_sst_assimilation fsA domW 2000 true [2, 0, 1] :=
  serial_parallel_identical fsA domW 2000 [2, 0, 1]
    [(1999, "a"), (2000, "a"), (2001, "a")] rfl (by decide)

/-! Helper lemmas about python's sorted listings. -/

/-- In a list sorted ascending, every member is at most the last
element. -/
theorem sorted_le_getLast {l : List String} (hs : l.Sorted (· ≤ ·)) :
    ∀ (hne : l ≠ []) (x : String), x ∈ l → x ≤ l.getLast hne := by
  induction l with
  | nil => intro hne; exact absurd rfl hne
  | cons a t ih =>
    intro hne x hx
    cases t with
    | nil =>
      have hxa : x = a := by simpa using hx
      subst hxa
      exact le_of_eq (by simp)
    | cons b t2 =>
      have hs2 : (b :: t2).Sorted (· ≤ ·) := hs.of_cons
      have hlast : (a :: b :: t2).getLast hne = (b :: t2).getLast (by simp) :=
        List.getLast_cons (by simp)
      rcases List.mem_cons.1 hx with h1 | h2
      · subst h1
        rw [hlast]
        exact List.rel_of_sorted_cons hs _ (List.getLast_mem _)
      · rw [hlast]
        exact ih hs2 (by simp) x h2

/-- In a list sorted ascending, the head is at most every member. -/
theorem sorted_head_le {l : List String} (hs : l.Sorted (· ≤ ·)) :
    ∀ (hne : l ≠ []) (x : String), x ∈ l → l.head hne ≤ x := by
  cases l with
  | nil => intro hne; exact absurd rfl hne
  | cons a t =>
    intro hne x hx
    rcases List.mem_cons.1 hx with h1 | h2
    · subst h1; exact le_refl _
    · exact List.rel_of_sorted_cons hs x h2

/-- The expression sorted(listing)[-1] on a non-empty listing succeeds
and yields the lexicographically last (maximal) filename. -/
theorem lastOfSorted_spec {l : List String} (h : l ≠ []) :
    ∃ x, lastOfSorted l = Except.ok x ∧ x ∈ l ∧ ∀ q ∈ l, q ≤ x := by
  have hperm : (pySorted l).Perm l := List.perm_insertionSort (· ≤ ·) l
  have hne : pySorted l ≠ [] := by
    intro h0
    exact h (List.Perm.eq_nil ((h0 ▸ hperm).symm))
  have hs : (pySorted l).Sorted (· ≤ ·) := List.sorted_insertionSort (· ≤ ·) l
  refine ⟨(pySorted l).getLast hne, ?_, ?_, ?_⟩
  · unfold lastOfSorted
    rw [List.getLast?_eq_getLast _ hne]
  · exact hperm.mem_iff.1 (List.getLast_mem hne)
  · intro q hq
    exact sorted_le_getLast hs hne q (hperm.mem_iff.2 hq)

/-- The expression sorted(listing)[0] on a non-empty listing succeeds
and yields the lexicographically first (minimal) filename. -/
theorem headOfSorted_spec {l : List String} (h : l ≠ []) :
    ∃ x, headOfSorted l = Except.ok x ∧ x ∈ l ∧ ∀ q ∈ l, x ≤ q := by
  have hperm : (pySorted l).Perm l := List.perm_insertionSort (· ≤ ·) l
  have hne : pySorted l ≠ [] := by
    intro h0
    exact h (List.Perm.eq_nil ((h0 ▸ hperm).symm))
  have hs : (pySorted l).Sorted (· ≤ ·) := List.sorted_insertionSort (· ≤ ·) l
  refine ⟨(pySorted l).head hne, ?_, ?_, ?_⟩
  · unfold headOfSorted
    rw [List.head?_eq_head hne]
  · exact hperm.mem_iff.1 (List.head_mem hne)
  · intro q hq
    exact sorted_head_le hs hne q (hperm.mem_iff.2 hq)

/-- C2 (refuting evaluation): the driver keeps the target year's files
in the raw os.listdir order — it never sorts them, despite the "Sort
data" comment — so a listing that comes back out of name order yields a
timestamp sequence that is not strictly increasing. -/
theorem interp_keeps_unsorted_listdir_order :
    (interp_sst_assimilation fsB domW 2006 true []).1 =
      Except.ok ([[none], [none], [none], [none]],
        [43200, 216000, 129600, 302400]) ∧
    ¬ List.Chain' (· < ·) ([43200, 216000, 129600, 302400] : List Int) := by
  constructor
  · rfl
  · simp [List.chain'_cons]

/-- C7: a missing prior-year directory (or, with the earlier listings
present and the prior one non-empty, a missing next-year directory)
makes interp_sst_assimilation raise the ConfigurationError before any
worker is dispatched: the result is the error and the list of files
handed to workers is empty. -/
theorem missing_year_dir_errors_before_dispatch (fs : SstFs) (domain : Domain)
    (year : Int) (serial : Bool) (sched : List Nat) :
    (fs.listdir (year - 1) = none →
      interp_sst_assimilation fs domain year serial sched =
        (Except.error PyErr.configurationError, [])) ∧
    (∀ prevL yearL, fs.listdir (year - 1) = some prevL → prevL ≠ [] →
      fs.listdir year = some yearL → fs.listdir (year + 1) = none →
      interp_sst_assimilation fs domain year serial sched =
        (Except.error PyErr.configurationError, [])) := by
  constructor
  · intro h
    simp only [interp_sst_assimilation, sstFileList, listdirE, h]
  · intro prevL yearL hprev hne hyear hnext
    obtain ⟨x, hx, -, -⟩ := lastOfSorted_spec hne
    simp only [interp_sst_assimilation, sstFileList, listdirE, hprev, hyear, hnext, hx]

/-- Witness for C7 on a filesystem with no year directories. -/
theorem missing_year_dir_witness :
    interp_sst_assimilation fsNone domW 2000 true [] =
      (Except.error PyErr.configurationError, []) :=
  (missing_year_dir_errors_before_dispatch fsNone domW 2000 true []).1 rfl

/-- C8 (refuting evaluation): with a non-empty time series, every
invocation of write_sstgrd opens the backing netCDF handle in the
constructor and then fails with TypeError at the with-statement,
because WriteForcing defines neither an enter nor an exit method; the
suite never runs, close is never called, and the acquired handle is
never released.  With an empty time series the globals construction
itself raises IndexError at time[0], before any handle is acquired, so
nothing leaks on that path. -/
theorem write_sstgrd_with_block_fails_and_leaks (output_file : String)
    (domain : Domain) (data : List (List (Option ℚ))) (t0 : Int) (rest : List Int) :
    write_sstgrd output_file domain data (t0 :: rest) =
      (Except.error PyErr.typeError, [NcEvent.acquire]) ∧
    NcEvent.release ∉ [NcEvent.acquire] ∧
    write_sstgrd output_file domain data [] = (Except.error PyErr.indexError, []) := by
  refine ⟨rfl, by simp, rfl⟩

/-- C9: a call to add_variable whose dimensions list names a dimension
never declared at construction time fails with the SchemaError (raised
by createVariable while the first statement's arguments are being
evaluated, before anything else happens). -/
theorem add_variable_undeclared_dim_schema_error {α : Type} (wf : WriteForcing)
    (name : String) (data : α) (dimensions : List String)
    (attributes : Option (List (String × String))) (fmt : String)
    (ncopts : List (String × String)) (d : String)
    (hd : d ∈ dimensions) (hnd : d ∉ wf.nc.dimensions.map Prod.fst) :
    wf.add_variable name data dimensions attributes fmt ncopts =
      Except.error PyErr.schemaError := by
  unfold WriteForcing.add_variable Dataset.createVariable
  have hall : dimensions.all (fun d => (wf.nc.dimensions.map Prod.fst).contains d) = false := by
    rw [List.all_eq_false]
    exact ⟨d, hd, by simpa using hnd⟩
  rw [hall]
  rfl

/-- Witness for C9: asking for the undeclared time dimension on a file
that only declares a node dimension. -/
theorem add_variable_undeclared_dim_witness :
    WriteForcing.add_variable wfNode ("sst") (0 : Nat) ["time"] none ("f4") [] =
      Except.error PyErr.schemaError :=
  add_variable_undeclared_dim_schema_error wfNode ("sst") (0 : Nat) ["time"] none
    ("f4") [] ("time") (by simp) (by simp [wfNode])

/-- C10: although both attribute parameters are documented as optional
with default None, the default is iterated unconditionally, so
constructing WriteForcing without global_attributes raises TypeError,
and calling add_variable without attributes always errors before
completing; construction does succeed once a (possibly empty)
dictionary is passed. -/
theorem none_defaults_always_error {α : Type} :
    (∀ (filename : String) (dims : List (String × Nat)),
      (WriteForcing.init filename dims none).1 = Except.error PyErr.typeError) ∧
    (∀ (filename : String) (dims : List (String × Nat))
      (gattrs : List (String × String)),
      ∃ wf, (WriteForcing.init filename dims (some gattrs)).1 = Except.ok wf) ∧
    (∀ (wf : WriteForcing) (name : String) (data : α) (dims : List String)
      (fmt : String) (ncopts : List (String × String)),
      ∃ e, wf.add_variable name data dims none fmt ncopts = Except.error e) := by
  refine ⟨fun _ _ => rfl, fun _ _ _ => ⟨_, rfl⟩, ?_⟩
  intro wf name data dims fmt ncopts
  unfold WriteForcing.add_variable
  cases h : wf.nc.createVariable name fmt dims with
  | error e => exact ⟨e, rfl⟩
  | ok nc =>
    by_cases hnc : ncopts.isEmpty
    · rw [if_pos hnc]
      exact ⟨PyErr.typeError, rfl⟩
    · rw [if_neg hnc]
      exact ⟨PyErr.typeError, rfl⟩

/-! Analysis of the collection loop and of successful driver runs. -/

/-- The worker evaluates the interpolator at every node coordinate, so
its vector has exactly one entry per mesh node. -/
theorem worker_length (domain : Domain) (s : Snapshot) :
    (inter_sst_worker (domain.lon.zip domain.lat) s).interp_sst.length = domain.node := by
  simp [inter_sst_worker, domain.lat_length, domain.node_count]

/-- Elimination for a successful collection loop: the lengths match the
result count, every collected vector has the node length (the numpy
assignment enforces it), and each date is the first time entry of the
corresponding worker result plus the 12-hour offset. -/
theorem collectResults_ok_elim (node : Nat) :
    ∀ (rs : List WorkerResult) (ds : List Int) (vs : List (List (Option ℚ))),
      collectResults node rs = Except.ok (ds, vs) →
      (ds.length = rs.length ∧ vs.length = rs.length) ∧
      (∀ v ∈ vs, v.length = node) ∧
      (∀ i (hi : i < ds.length) (hri : i < rs.length),
        ∃ t, (rs.get ⟨i, hri⟩).time_out_dt.head? = some t ∧
          ds.get ⟨i, hi⟩ = t + twelveHours) := by
  intro rs
  induction rs with
  | nil =>
    intro ds vs h
    have hds : ds = [] ∧ vs = [] := by
      have h1 : (([], []) : List Int × List (List (Option ℚ))) = (ds, vs) := by
        exact Except.ok.inj h
      constructor
      · exact (congrArg Prod.fst h1).symm
      · exact (congrArg Prod.snd h1).symm
    obtain ⟨h2, h3⟩ := hds
    subst h2
    subst h3
    refine ⟨⟨rfl, rfl⟩, by simp, ?_⟩
    intro i hi
    exact absurd hi (by simp)
  | cons r rest ih =>
    intro ds vs h
    rw [collectResults] at h
    cases hts : r.time_out_dt.head? with
    | none =>
      simp only [hts] at h
      exact Except.noConfusion h
    | some t =>
      simp only [hts] at h
      by_cases hlen : r.interp_sst.length = node
      · rw [if_pos hlen] at h
        cases hc : collectResults node rest with
        | error e =>
          rw [hc] at h
          exact Except.noConfusion h
        | ok p =>
          obtain ⟨ds', vs'⟩ := p
          rw [hc] at h
          have h1 : ((t + twelveHours) :: ds', r.interp_sst :: vs') = (ds, vs) :=
            Except.ok.inj h
          have hd : ds = (t + twelveHours) :: ds' := (congrArg Prod.fst h1).symm
          have hv : vs = r.interp_sst :: vs' := (congrArg Prod.snd h1).symm
          subst hd
          subst hv
          obtain ⟨⟨hl1, hl2⟩, hmem, hpt⟩ := ih ds' vs' hc
          refine ⟨⟨by simp [hl1], by simp [hl2]⟩, ?_, ?_⟩
          · intro v hvm
            rcases List.mem_cons.1 hvm with h2 | h2
            · subst h2; exact hlen
            · exact hmem v h2
          · intro i hi hri
            cases i with
            | zero => exact ⟨t, hts, rfl⟩
            | succ i2 =>
              have hi2 : i2 < ds'.length := by simpa using hi
              have hri2 : i2 < rest.length := by simpa using hri
              obtain ⟨t2, ht2, hd2⟩ := hpt i2 hi2 hri2
              exact ⟨t2, ht2, hd2⟩
      · rw [if_neg hlen] at h
        exact Except.noConfusion h

/-- Success of the collection loop when every worker result has a
non-empty time axis and a node-length vector. -/
theorem collectResults_ok_of (node : Nat) :
    ∀ rs : List WorkerResult,
      (∀ r ∈ rs, r.time_out_dt ≠ []) →
      (∀ r ∈ rs, r.interp_sst.length = node) →
      ∃ ds vs, collectResults node rs = Except.ok (ds, vs) ∧
        ds.length = rs.length ∧ vs.length = rs.length := by
  intro rs
  induction rs with
  | nil => intro _ _; exact ⟨[], [], rfl, rfl, rfl⟩
  | cons r rest ih =>
    intro ht hl
    obtain ⟨ds, vs, hc, hd, hv⟩ := ih (fun q hq => ht q (List.mem_cons_of_mem _ hq))
      (fun q hq => hl q (List.mem_cons_of_mem _ hq))
    have hne := ht r (List.mem_cons_self r rest)
    obtain ⟨t, hts⟩ : ∃ t, r.time_out_dt.head? = some t := by
      cases hh : r.time_out_dt with
      | nil => exact absurd hh hne
      | cons a l => exact ⟨a, rfl⟩
    refine ⟨(t + twelveHours) :: ds, r.interp_sst :: vs, ?_, by simp [hd], by simp [hv]⟩
    simp [collectResults, hts, hl r (List.mem_cons_self r rest), hc]

/-- Elimination for a successful driver run: the run went through a
successful file listing and a successful collection, and in serial mode
the collected results are exactly the in-order worker outputs. -/
theorem interp_ok_elim (fs : SstFs) (domain : Domain) (year : Int) (serial : Bool)
    (sched : List Nat) (sst : List (List (Option ℚ))) (dates : List Int)
    (h : (interp_sst_assimilation fs domain year serial sched).1 = Except.ok (sst, dates)) :
    ∃ files results, sstFileList fs year = Except.ok files ∧
      collectResults domain.node results = Except.ok (dates, sst) ∧
      (serial = true → results = files.map (interpWorkerOn fs domain)) := by
  rw [interp_sst_assimilation] at h
  cases hf : sstFileList fs year with
  | error e =>
    rw [hf] at h
    exact Except.noConfusion h
  | ok files =>
    rw [hf] at h
    cases hserial : serial with
    | true =>
      rw [hserial] at h
      simp only [if_true] at h
      cases hc : collectResults domain.node (files.map (interpWorkerOn fs domain)) with
      | error e =>
        rw [hc] at h
        exact Except.noConfusion h
      | ok p =>
        obtain ⟨ds, vs⟩ := p
        rw [hc] at h
        have h1 : (vs, ds) = (sst, dates) := Except.ok.inj h
        have h2 : vs = sst := congrArg Prod.fst h1
        have h3 : ds = dates := congrArg Prod.snd h1
        subst h2
        subst h3
        exact ⟨files, files.map (interpWorkerOn fs domain), rfl, hc, fun _ => rfl⟩
    | false =>
      rw [hserial] at h
      simp only [Bool.false_eq_true, if_false] at h
      cases hp : poolMap sched (interpWorkerOn fs domain) files with
      | error e =>
        simp only [hp] at h
        exact Except.noConfusion h
      | ok results =>
        simp only [hp] at h
        cases hc : collectResults domain.node results with
        | error e =>
          rw [hc] at h
          exact Except.noConfusion h
        | ok p =>
          obtain ⟨ds, vs⟩ := p
          rw [hc] at h
          have h1 : (vs, ds) = (sst, dates) := Except.ok.inj h
          have h2 : vs = sst := congrArg Prod.fst h1
          have h3 : ds = dates := congrArg Prod.snd h1
          subst h2
          subst h3
          exact ⟨files, results, rfl, hc, fun hcontra => Bool.noConfusion hcontra⟩

/-- C4: the worker's interpolated vector has one entry per mesh node —
its length is the Domain's node count — and every vector collected by a
successful run of interp_sst_assimilation has that same length. -/
theorem interp_vector_length_eq_node (domain : Domain) (s : Snapshot) (fs : SstFs)
    (year : Int) (serial : Bool) (sched : List Nat) :
    (inter_sst_worker (domain.lon.zip domain.lat) s).interp_sst.length = domain.node ∧
    (∀ sst dates,
      (interp_sst_assimilation fs domain year serial sched).1 = Except.ok (sst, dates) →
      ∀ v ∈ sst, v.length = domain.node) := by
  constructor
  · exact worker_length domain s
  · intro sst dates h v hv
    obtain ⟨files, results, hf, hc, -⟩ :=
      interp_ok_elim fs domain year serial sched sst dates h
    exact (collectResults_ok_elim domain.node results dates sst hc).2.1 v hv

/-- Witness for C4 on a concrete successful run (three one-node
vectors are collected, each of length one). -/
theorem interp_vector_length_witness :
    ([none] : List (Option ℚ)).length = domW.node :=
  (interp_vector_length_eq_node domW (snapT 0) fsA 2000 true []).2
    [[none], [none], [none]] [43200, 43200, 43200] rfl [none] (by simp)

/-- C5: every timestamp returned by a serial run of
interp_sst_assimilation equals the corresponding snapshot file's own
first (midnight) timestamp plus exactly twelve hours. -/
theorem dates_midday_offset (fs : SstFs) (domain : Domain) (year : Int)
    (sched : List Nat) (files : List (Int × String))
    (sst : List (List (Option ℚ))) (dates : List Int)
    (hf : sstFileList fs year = Except.ok files)
    (h : (interp_sst_assimilation fs domain year true sched).1 = Except.ok (sst, dates))
    (i : Nat) (hi : i < dates.length) (hif : i < files.length) :
    ∃ t, (fs.read (files.get ⟨i, hif⟩).1 (files.get ⟨i, hif⟩).2).times.head? = some t ∧
      dates.get ⟨i, hi⟩ = t + twelveHours := by
  obtain ⟨files2, results, hf2, hc, hser⟩ :=
    interp_ok_elim fs domain year true sched sst dates h
  rw [hf] at hf2
  have hfe : files = files2 := Except.ok.inj hf2
  subst hfe
  have hres : results = files.map (interpWorkerOn fs domain) := hser rfl
  subst hres
  obtain ⟨-, -, hpt⟩ :=
    collectResults_ok_elim domain.node (files.map (interpWorkerOn fs domain)) dates sst hc
  have hri : i < (files.map (interpWorkerOn fs domain)).length := by simpa using hif
  obtain ⟨t, hts, hdt⟩ := hpt i hi hri
  refine ⟨t, ?_, hdt⟩
  simp only [List.get_eq_getElem, List.getElem_map] at hts
  exact hts

/-- Witness for C5 at index 0 of a concrete run. -/
theorem dates_midday_offset_witness :
    ∃ t, (fsA.read 1999 ("a")).times.head? = some t ∧
      ([43200, 43200, 43200] : List Int).get ⟨0, by decide⟩ = t + twelveHours := by
  have h := dates_midday_offset fsA domW 2000 [] [(1999, "a"), (2000, "a"), (2001, "a")]
    [[none], [none], [none]] [43200, 43200, 43200] rfl rfl 0 (by decide) (by decide)
  exact h

/-- C3: with the three year directories present, the boundary ones
non-empty, and every snapshot carrying at least one timestamp, the
driver returns exactly (number of files in the target year's directory)
plus two timestamps and as many vectors, and the two extra entries come
from the lexicographically last file of the prior year's directory
(processed first) and the lexicographically first file of the next
year's directory (processed last). -/
theorem timestamp_count_plus_two (fs : SstFs) (domain : Domain) (year : Int)
    (prevL yearL nextL : List String)
    (hprev : fs.listdir (year - 1) = some prevL) (hprevne : prevL ≠ [])
    (hyear : fs.listdir year = some yearL)
    (hnext : fs.listdir (year + 1) = some nextL) (hnextne : nextL ≠ [])
    (htimes : ∀ y n, (fs.read y n).times ≠ []) :
    ∃ files prevLast nextFirst sst dates,
      sstFileList fs year = Except.ok files ∧
      files.length = yearL.length + 2 ∧
      files.head? = some (year - 1, prevLast) ∧
      prevLast ∈ prevL ∧ (∀ q ∈ prevL, q ≤ prevLast) ∧
      files.getLast? = some (year + 1, nextFirst) ∧
      nextFirst ∈ nextL ∧ (∀ q ∈ nextL, nextFirst ≤ q) ∧
      (interp_sst_assimilation fs domain year true []).1 = Except.ok (sst, dates) ∧
      dates.length = yearL.length + 2 ∧ sst.length = yearL.length + 2 := by
  obtain ⟨pl, hpl, hplm, hplmax⟩ := lastOfSorted_spec hprevne
  obtain ⟨nf, hnf, hnfm, hnfmin⟩ := headOfSorted_spec hnextne
  have hf : sstFileList fs year =
      Except.ok ((year - 1, pl) :: (yearL.map (fun i => (year, i)) ++ [(year + 1, nf)])) := by
    simp only [sstFileList, listdirE, hprev, hyear, hnext, hpl, hnf]
  set files := (year - 1, pl) :: (yearL.map (fun i => (year, i)) ++ [(year + 1, nf)]) with hfdef
  have hlen : files.length = yearL.length + 2 := by simp [hfdef]
  obtain ⟨ds, vs, hc, hdl, hvl⟩ :=
    collectResults_ok_of domain.node (files.map (interpWorkerOn fs domain))
      (by
        intro r hr
        obtain ⟨f, hfm, hfr⟩ := List.mem_map.1 hr
        rw [← hfr]
        exact htimes f.1 f.2)
      (by
        intro r hr
        obtain ⟨f, hfm, hfr⟩ := List.mem_map.1 hr
        rw [← hfr]
        exact worker_length domain (fs.read f.1 f.2))
  refine ⟨files, pl, nf, vs, ds, hf, hlen, ?_, hplm, hplmax, ?_, hnfm, hnfmin, ?_, ?_, ?_⟩
  · rw [hfdef]
    rfl
  · rw [hfdef, ← List.cons_append, List.getLast?_concat]
  · simp only [interp_sst_assimilation, hf, if_true, hc]
  · rw [hdl, List.length_map, hlen]
  · rw [hvl, List.length_map, hlen]

/-- Witness for C3 on a filesystem with a single file per year. -/
theorem timestamp_count_plus_two_witness :
    ∃ files prevLast nextFirst sst dates,
      sstFileList fsA 2000 = Except.ok files ∧
      files.length = 3 ∧
      files.head? = some (1999, prevLast) ∧
      prevLast ∈ ["a"] ∧ (∀ q ∈ ["a"], q ≤ prevLast) ∧
      files.getLast? = some (2001, nextFirst) ∧
      nextFirst ∈ ["a"] ∧ (∀ q ∈ ["a"], nextFirst ≤ q) ∧
      (interp_sst_assimilation fsA domW 2000 true []).1 = Except.ok (sst, dates) ∧
      dates.length = 3 ∧ sst.length = 3 := by
  have h := timestamp_count_plus_two fsA domW 2000 ["a"] ["a"] ["a"] rfl
    (by simp) rfl rfl (by simp) (fun _ _ => by simp [fsA, snapT])
  exact h

/-! Analysis of the nearest-neighbour axis lookup. -/

/-- When the best distance so far is zero and no remaining coordinate
equals the query, the scan keeps the current best index. -/
theorem nearestGo_of_no_zero (x : ℚ) :
    ∀ (l : List ℚ) (i best : Nat), (∀ a ∈ l, a ≠ x) → nearestGo x l i best 0 = best := by
  intro l
  induction l with
  | nil => intro i best _; rfl
  | cons a rest ih =>
    intro i best h
    have hnl : ¬ |x - a| < 0 := not_lt.2 (abs_nonneg _)
    rw [nearestGo, if_neg hnl]
    exact ih (i + 1) best (fun b hb => h b (List.mem_cons_of_mem a hb))

/-- When the query coincides with exactly one remaining coordinate and
the best distance so far is positive, the scan lands on that
coordinate's absolute index. -/
theorem nearestGo_exact (x : ℚ) :
    ∀ (l : List ℚ) (j : Nat) (hj : j < l.length), l.get ⟨j, hj⟩ = x →
      (∀ k (hk : k < l.length), k ≠ j → l.get ⟨k, hk⟩ ≠ x) →
      ∀ (i best : Nat) (bd : ℚ), 0 < bd → nearestGo x l i best bd = i + j := by
  intro l
  induction l with
  | nil => intro j hj; exact absurd hj (by simp)
  | cons a rest ih =>
    intro j hj hget huniq i best bd hbd
    cases j with
    | zero =>
      have ha : a = x := hget
      have hz : |x - a| = 0 := by rw [ha]; simp
      rw [nearestGo, if_pos (by rw [hz]; exact hbd), hz]
      have hrest : ∀ b ∈ rest, b ≠ x := by
        intro b hb
        obtain ⟨⟨k, hk⟩, hbk⟩ := List.mem_iff_get.1 hb
        have := huniq (k + 1) (by simpa using hk) (by omega)
        rw [show ((a :: rest).get ⟨k + 1, by simpa using hk⟩) = rest.get ⟨k, hk⟩ from rfl,
          hbk] at this
        exact this
      rw [nearestGo_of_no_zero x rest (i + 1) i hrest]
      omega
    | succ j2 =>
      have hj2 : j2 < rest.length := by simpa using hj
      have hget2 : rest.get ⟨j2, hj2⟩ = x := hget
      have ha : a ≠ x := huniq 0 (by simp) (by omega)
      have hpos : 0 < |x - a| := abs_pos.2 (sub_ne_zero.2 (Ne.symm ha))
      have huniq2 : ∀ k (hk : k < rest.length), k ≠ j2 → rest.get ⟨k, hk⟩ ≠ x := by
        intro k hk hkj
        have := huniq (k + 1) (by simpa using hk) (by omega)
        exact this
      rw [nearestGo]
      by_cases hlt : |x - a| < bd
      · rw [if_pos hlt, ih j2 hj2 hget2 huniq2 (i + 1) i |x - a| hpos]
        omega
      · rw [if_neg hlt, ih j2 hj2 hget2 huniq2 (i + 1) best bd hbd]
        omega

/-- A query lying exactly on a grid coordinate of a duplicate-free axis
resolves to that coordinate's index. -/
theorem nearestIdx_get {axis : List ℚ} (hd : axis.Pairwise (· ≠ ·)) (j : Nat)
    (hj : j < axis.length) : nearestIdx axis (axis.get ⟨j, hj⟩) = j := by
  cases axis with
  | nil => exact absurd hj (by simp)
  | cons a rest =>
    obtain ⟨hhead, hrestpw⟩ := List.pairwise_cons.1 hd
    cases j with
    | zero =>
      have hz : |(a :: rest).get ⟨0, hj⟩ - a| = 0 := by simp
      rw [nearestIdx, hz]
      apply nearestGo_of_no_zero
      intro b hb hbx
      exact hhead b hb hbx.symm
    | succ j2 =>
      have hj2 : j2 < rest.length := by simpa using hj
      have hget2 : rest.get ⟨j2, hj2⟩ = (a :: rest).get ⟨j2 + 1, hj⟩ := rfl
      have ha : a ≠ (a :: rest).get ⟨j2 + 1, hj⟩ := by
        rw [← hget2]
        exact hhead _ (List.get_mem rest j2 hj2)
      have hpos : 0 < |(a :: rest).get ⟨j2 + 1, hj⟩ - a| :=
        abs_pos.2 (sub_ne_zero.2 (Ne.symm ha))
      have huniq2 : ∀ k (hk : k < rest.length), k ≠ j2 →
          rest.get ⟨k, hk⟩ ≠ (a :: rest).get ⟨j2 + 1, hj⟩ := by
        intro k hk hkj
        rw [← hget2]
        rcases Nat.lt_or_ge k j2 with hlt | hge
        · exact (List.pairwise_iff_get.1 hrestpw ⟨k, hk⟩ ⟨j2, hj2⟩ hlt)
        · have hlt2 : j2 < k := lt_of_le_of_ne hge (fun he => hkj he.symm)
          exact (List.pairwise_iff_get.1 hrestpw ⟨j2, hj2⟩ ⟨k, hk⟩ hlt2).symm
      rw [nearestIdx]
      rw [nearestGo_exact ((a :: rest).get ⟨j2 + 1, hj⟩) rest j2 hj2 hget2 huniq2 1 0
        |(a :: rest).get ⟨j2 + 1, hj⟩ - a| hpos]
      omega

/-- C6: masking is applied before interpolation, so a cell whose mask is
not 1 contributes only the NaN sentinel: whenever the nearest cell of a
query is masked the interpolator yields the sentinel, and in particular
a mesh node lying exactly on a masked cell's coordinates (on
duplicate-free, strictly increasing axes) receives the sentinel, never
the cell's original temperature. -/
theorem masked_cell_never_selected (s : Snapshot)
    (hlon : s.lon.Pairwise (· < ·)) (hlat : s.lat.Pairwise (· < ·))
    (i j : Nat) (hi : i < s.lon.length) (hj : j < s.lat.length)
    (hm : s.mask i j ≠ 1) :
    (∀ p : ℚ × ℚ, s.mask (nearestIdx s.lon p.1) (nearestIdx s.lat p.2) ≠ 1 →
      interpAt s p = none) ∧
    interpAt s (s.lon.get ⟨i, hi⟩, s.lat.get ⟨j, hj⟩) = none := by
  have hgen : ∀ p : ℚ × ℚ, s.mask (nearestIdx s.lon p.1) (nearestIdx s.lat p.2) ≠ 1 →
      interpAt s p = none := by
    intro p hp
    simp [interpAt, maskedSst, hp]
  refine ⟨hgen, ?_⟩
  apply hgen
  have h1 : nearestIdx s.lon (s.lon.get ⟨i, hi⟩) = i :=
    nearestIdx_get (hlon.imp (fun hab => ne_of_lt hab)) i hi
  have h2 : nearestIdx s.lat (s.lat.get ⟨j, hj⟩) = j :=
    nearestIdx_get (hlat.imp (fun hab => ne_of_lt hab)) j hj
  rw [show ((s.lon.get ⟨i, hi⟩, s.lat.get ⟨j, hj⟩) : ℚ × ℚ).1 = s.lon.get ⟨i, hi⟩ from rfl,
    show ((s.lon.get ⟨i, hi⟩, s.lat.get ⟨j, hj⟩) : ℚ × ℚ).2 = s.lat.get ⟨j, hj⟩ from rfl,
    h1, h2]
  exact hm

/-- Witness for C6 at the masked cell of a concrete two-cell grid. -/
theorem masked_cell_never_selected_witness :
    interpAt snapM (0, 0) = none := by
  have h := (masked_cell_never_selected snapM
    (by constructor
        · intro b hb
          simp only [snapM] at hb
          simp only [List.mem_singleton] at hb
          rw [hb]
          norm_num
        · simp [snapM])
    (by simp [snapM]) 0 0 (by simp [snapM]) (by simp [snapM]) (by simp [snapM])).2
  exact h
